import Mathlib

/-!
Verification of the PowerDNS Recursor control-socket client
(plugins/inputs/powerdns_recursor): the response decoder, the
native-width integer codec, the v3 stream driver, the legacy datagram
driver and the gather orchestrator, shallowly embedded from the Go
source, with theorems about the specified behaviour.
-/

namespace PowerdnsRecursor

/-! ## Response decoder (parseResponse in protocol_commons.go and
powerdns_recursor.go; both copies have the same logic) -/

/-- Embedding of Go strings.Split with a one-character separator:
cuts the character list at every occurrence of the separator.  The
result is never empty; an empty input yields one empty segment. -/
def splitOnChar (c : Char) : List Char → List (List Char)
  | [] => [[]]
  | x :: xs =>
    match splitOnChar c xs with
    | [] => if x = c then [[], []] else [[x]]
    | y :: ys => if x = c then [] :: y :: ys else (x :: y) :: ys

/-- Numeric value of a list of decimal digit characters, most
significant first, as accumulated by strconv.ParseInt. -/
def digitsVal (cs : List Char) : Nat :=
  cs.foldl (fun a c => a * 10 + (c.toNat - 48)) 0

/-- Digit-string parsing inside strconv.ParseInt: the digit part must
be nonempty and consist of decimal digits only. -/
def parseDigits (cs : List Char) : Option Nat :=
  if cs ≠ [] ∧ cs.all Char.isDigit then some (digitsVal cs) else none

/-- Embedding of strconv.ParseInt(s, 10, 64): an optional sign followed
by at least one decimal digit, with the value required to fit in a
signed 64-bit integer (out-of-range input is an error, hence none). -/
def parseInt64 (s : List Char) : Option Int :=
  match s with
  | [] => none
  | c :: rest =>
    if c = '+' then
      (parseDigits rest).bind fun n =>
        if n ≤ 2 ^ 63 - 1 then some (n : Int) else none
    else if c = '-' then
      (parseDigits rest).bind fun n =>
        if n ≤ 2 ^ 63 then some (-(n : Int)) else none
    else
      (parseDigits (c :: rest)).bind fun n =>
        if n ≤ 2 ^ 63 - 1 then some (n : Int) else none

/-- Go map assignment values[k] = v on an association list with unique
keys: replace the binding in place when the key is present, append it
otherwise. -/
def mapInsert : List (List Char × Int) → List Char → Int → List (List Char × Int)
  | [], k, v => [(k, v)]
  | (k0, v0) :: rest, k, v =>
    if k0 = k then (k, v) :: rest else (k0, v0) :: mapInsert rest k v

/-- Go map read values[k] on the association-list model. -/
def mapLookup : List (List Char × Int) → List Char → Option Int
  | [], _ => none
  | (k0, v0) :: rest, k => if k0 = k then some v0 else mapLookup rest k

/-- One iteration of the parseResponse loop: split the line on tabs,
skip it when it has fewer than two fields or the second field does not
parse as a signed 64-bit integer, otherwise store name and value. -/
def parseLine (values : List (List Char × Int)) (metric : List Char) :
    List (List Char × Int) :=
  match splitOnChar '\t' metric with
  | m0 :: m1 :: _ =>
    match parseInt64 m1 with
    | some i => mapInsert values m0 i
    | none => values
  | _ => values

/-- Embedding of parseResponse: split the text on newlines, drop the
final segment, and fold every remaining line through the line parser. -/
def parseResponse (metrics : List Char) : List (List Char × Int) :=
  ((splitOnChar '\n' metrics).dropLast).foldl parseLine []

/-! ## Native integer codec (protocol_commons.go): writeNativeUIntToConn
and readNativeUIntFromConn, with the endianness probe abstracted as a
ByteOrder parameter and the platform width strconv.IntSize / 8 as a
Nat parameter. -/

/-- Byte order as returned by getEndianness. -/
inductive ByteOrder
  | little
  | big
deriving DecidableEq, Repr

/-- Little-endian base-256 digits of a value, exactly w bytes.  This is
what binary.LittleEndian.PutUint32 and PutUint64 store; the uint32 and
uint64 conversions in the source truncate, which the base-256 expansion
reproduces since only value mod 256 to the w is used. -/
def leBytes : Nat → Nat → List Nat
  | 0, _ => []
  | w + 1, v => v % 256 :: leBytes w (v / 256)

/-- Value of a little-endian byte list, as computed by
binary.LittleEndian.Uint32 and Uint64. -/
def leValue : List Nat → Nat
  | [] => 0
  | b :: bs => b + 256 * leValue bs

/-- Byte image of a w-byte native unsigned integer in the given order. -/
def putUint (order : ByteOrder) (w v : Nat) : List Nat :=
  match order with
  | .little => leBytes w v
  | .big => (leBytes w v).reverse

/-- Value read back from a native unsigned integer byte image. -/
def getUint (order : ByteOrder) (bytes : List Nat) : Nat :=
  match order with
  | .little => leValue bytes
  | .big => leValue bytes.reverse

/-- Error taxonomy of the drivers: each fmt.Errorf or errors.New site
in the source becomes one constructor, and errors propagated from the
environment (dial, deadline, read, write, chmod, close) are ioError. -/
inductive GatherError
  | ioError (msg : String)
  | unsupportedPlatform
  | nativeUIntShortRead (got expected : Nat)
  | noStatusCode
  | emptyResponse
  | incompleteResponse (expected got : Nat)
  | noDataReceived
deriving DecidableEq, Repr

/-! ## Connection model: a script of read and write outcomes supplied
by the peer, with the bytes actually written recorded as a trace. -/

/-- Scripted connection: each Write call consumes one write outcome
(none is success), each Read call consumes one read outcome (the bytes
the peer delivers, clipped to the buffer capacity, or an error).
Bytes are naturals below 256 in reality. -/
structure Conn where
  writeOutcomes : List (Option GatherError)
  readOutcomes : List (Except GatherError (List Nat))
  written : List Nat
deriving Repr

/-- conn.Write: on success the bytes are appended to the written
trace; an exhausted script accepts the write. -/
def connWrite (c : Conn) (bytes : List Nat) : Option GatherError × Conn :=
  match c.writeOutcomes with
  | [] => (none, { c with written := c.written ++ bytes })
  | o :: rest =>
    match o with
    | none => (none, { c with writeOutcomes := rest, written := c.written ++ bytes })
    | some e => (some e, { c with writeOutcomes := rest })

/-- conn.Read into a buffer of the given capacity: the peer bytes are
clipped to the capacity; an exhausted script reads zero bytes. -/
def connRead (c : Conn) (cap : Nat) : Except GatherError (List Nat) × Conn :=
  match c.readOutcomes with
  | [] => (.ok [], c)
  | o :: rest =>
    let c2 := { c with readOutcomes := rest }
    match o with
    | .error e => (.error e, c2)
    | .ok bs => (.ok (bs.take cap), c2)

/-- Embedding of writeNativeUIntToConn: encode the value at the native
width in the probed byte order and write it; any width other than 4 or
8 is the unsupported-configuration error. -/
def writeNativeUIntToConn (order : ByteOrder) (width : Nat) (c : Conn)
    (value : Nat) : Option GatherError × Conn :=
  if width = 4 then connWrite c (putUint order 4 value)
  else if width = 8 then connWrite c (putUint order 8 value)
  else (some .unsupportedPlatform, c)

/-- Embedding of readNativeUIntFromConn: read width bytes, fail when
the read returns a different count, then decode in the probed byte
order; any width other than 4 or 8 is the unsupported-configuration
error. -/
def readNativeUIntFromConn (order : ByteOrder) (width : Nat) (c : Conn) :
    Except GatherError Nat × Conn :=
  match connRead c width with
  | (.error e, c2) => (.error e, c2)
  | (.ok bs, c2) =>
    if bs.length ≠ width then (.error (.nativeUIntShortRead bs.length width), c2)
    else if width = 4 then (.ok (getUint order bs), c2)
    else if width = 8 then (.ok (getUint order bs), c2)
    else (.error .unsupportedPlatform, c2)

/-! ## V3 stream driver (gatherFromV3Server) -/

/-- Byte-to-character view of the Go conversion string(data); the
control-socket responses are ASCII, where the two coincide. -/
def bytesToChars (bs : List Nat) : List Char :=
  bs.map Char.ofNat

/-- Command bytes sent by the v3 driver, from the source literal
[]byte("get-all"). -/
def v3Command : List Nat :=
  "get-all".data.map Char.toNat

/-- Environment script for one gatherFromV3Server call: outcomes of
net.Dial and SetDeadline, the scripted connection, and the result of
the final conn.Close. -/
structure V3Script where
  dial : Option GatherError
  setDeadline : Option GatherError
  conn : Conn
  closeResult : Option GatherError

/-- Observable outcome of one gatherFromV3Server call: the bytes
written to the connection, the fields handed to acc.AddFields (none
when the call failed before emitting), and the returned error. -/
structure V3Outcome where
  written : List Nat
  emitted : Option (List (List Char × Int))
  ret : Option GatherError
deriving Repr

/-- Embedding of gatherFromV3Server: dial, set the deadline, write the
4-byte zero status preamble, the native-width command length and the
command bytes, then read a 4-byte status (zero bytes read is an
error), the native-width response length (zero is an error), and
exactly that many body bytes (any other count is an error); decode the
body, emit the fields, and return the close result. -/
def gatherFromV3Server (order : ByteOrder) (width : Nat) (s : V3Script) :
    V3Outcome :=
  match s.dial with
  | some e => ⟨s.conn.written, none, some e⟩
  | none =>
  match s.setDeadline with
  | some e => ⟨s.conn.written, none, some e⟩
  | none =>
  match connWrite s.conn [0, 0, 0, 0] with
  | (some e, c1) => ⟨c1.written, none, some e⟩
  | (none, c1) =>
  match writeNativeUIntToConn order width c1 v3Command.length with
  | (some e, c2) => ⟨c2.written, none, some e⟩
  | (none, c2) =>
  match connWrite c2 v3Command with
  | (some e, c3) => ⟨c3.written, none, some e⟩
  | (none, c3) =>
  match connRead c3 4 with
  | (.error e, c4) => ⟨c4.written, none, some e⟩
  | (.ok statusBytes, c4) =>
  if statusBytes.length = 0 then ⟨c4.written, none, some .noStatusCode⟩
  else
  match readNativeUIntFromConn order width c4 with
  | (.error e, c5) => ⟨c5.written, none, some e⟩
  | (.ok responseLength, c5) =>
  if responseLength = 0 then ⟨c5.written, none, some .emptyResponse⟩
  else
  match connRead c5 responseLength with
  | (.error e, c6) => ⟨c6.written, none, some e⟩
  | (.ok data, c6) =>
  if data.length ≠ responseLength then
    ⟨c6.written, none, some (.incompleteResponse responseLength data.length)⟩
  else
    ⟨c6.written, some (parseResponse (bytesToChars data)), s.closeResult⟩

/-! ## Legacy datagram driver (gatherServer in powerdns_recursor.go) -/

/-- Environment script for one gatherServer call: outcomes of the two
unixgram address resolutions, DialUnix, os.Chmod, SetDeadline, the
scripted connection, and the final conn.Close. -/
structure LegacyScript where
  resolveLocal : Option GatherError
  resolveRemote : Option GatherError
  dial : Option GatherError
  chmod : Option GatherError
  setDeadline : Option GatherError
  conn : Conn
  closeResult : Option GatherError

/-- Observable outcome of one gatherServer call: fields handed to
acc.AddFields, the returned error, and whether os.Remove was invoked
on the ephemeral receive-socket path. -/
structure LegacyOutcome where
  emitted : Option (List (List Char × Int))
  ret : Option GatherError
  removed : Bool
deriving Repr

/-- Exchange phase of gatherServer, covering everything after the
local address has been resolved: resolve the remote address, dial,
chmod the receive socket, set the deadline, write the optional 4-byte
zero preamble (new protocol only), write the command (get-all with a
trailing newline on the legacy protocol, without it on the new one),
optionally read a 4-byte status, read one datagram into a 16384-byte
buffer (zero bytes is an error), decode the whole buffer including its
zero padding, emit the fields, and return the close result. -/
def gatherServerExchange (newProtocol : Bool) (s : LegacyScript) :
    Option (List (List Char × Int)) × Option GatherError :=
  match s.resolveRemote with
  | some e => (none, some e)
  | none =>
  match s.dial with
  | some e => (none, some e)
  | none =>
  match s.chmod with
  | some e => (none, some e)
  | none =>
  match s.setDeadline with
  | some e => (none, some e)
  | none =>
  let afterPreamble : Option GatherError × Conn :=
    if newProtocol then connWrite s.conn [0, 0, 0, 0] else (none, s.conn)
  match afterPreamble with
  | (some e, _) => (none, some e)
  | (none, c1) =>
  let command : List Nat :=
    if newProtocol then "get-all".data.map Char.toNat
    else "get-all\n".data.map Char.toNat
  match connWrite c1 command with
  | (some e, _) => (none, some e)
  | (none, c2) =>
  let afterStatus : Except GatherError Unit × Conn :=
    if newProtocol then
      match connRead c2 4 with
      | (.error e, c3) => (.error e, c3)
      | (.ok statusBytes, c3) =>
        if statusBytes.length = 0 then (.error .noStatusCode, c3)
        else (.ok (), c3)
    else (.ok (), c2)
  match afterStatus with
  | (.error e, _) => (none, some e)
  | (.ok _, c3) =>
  match connRead c3 16384 with
  | (.error e, _) => (none, some e)
  | (.ok data, _) =>
  if data.length = 0 then (none, some .noDataReceived)
  else
    let buf := data ++ List.replicate (16384 - data.length) 0
    (some (parseResponse (bytesToChars buf)), s.closeResult)

/-- Embedding of gatherServer: resolve the unique local receive path;
from that point on os.Remove of the path is deferred, so every exit of
the exchange phase reports the path as removed. -/
def gatherServer (newProtocol : Bool) (s : LegacyScript) : LegacyOutcome :=
  match s.resolveLocal with
  | some e => ⟨none, some e, false⟩
  | none =>
    let body := gatherServerExchange newProtocol s
    ⟨body.1, body.2, true⟩

/-! ## Gather orchestrator (Gather in powerdns_recursor.go) -/

/-- Default control-socket path used when no sockets are configured. -/
def defaultRecursorSocket : String :=
  "/var/run/pdns_recursor.controlsocket"

/-- State of the telegraf accumulator visible to this plugin: the
(server tag, fields) records added and the errors reported. -/
structure Accumulated where
  records : List (String × List (List Char × Int))
  errors : List GatherError
deriving Repr

/-- Effect of one gatherServer call on the accumulator, as performed
by the Gather loop body: the emitted fields are added tagged with the
server socket, and a returned error is added to the error list. -/
def accumulateServer (acc : Accumulated) (sock : String)
    (o : LegacyOutcome) : Accumulated :=
  { records := acc.records ++ (match o.emitted with
      | some f => [(sock, f)]
      | none => []),
    errors := acc.errors ++ (match o.ret with
      | some e => [e]
      | none => []) }

/-- Embedding of Gather: with no configured sockets, query the default
socket and propagate its error as the return value; otherwise query
every configured socket in order, record each failure with AddError,
and return nil. -/
def Gather (sockets : List String) (newProtocol : Bool)
    (scripts : String → LegacyScript) : Option GatherError × Accumulated :=
  match sockets with
  | [] =>
    let o := gatherServer newProtocol (scripts defaultRecursorSocket)
    (o.ret,
     { records := match o.emitted with
         | some f => [(defaultRecursorSocket, f)]
         | none => [],
       errors := [] })
  | _ =>
    (none,
     sockets.foldl
       (fun acc sock =>
         accumulateServer acc sock (gatherServer newProtocol (scripts sock)))
       ⟨[], []⟩)

/-! ## Codec lemmas and the round-trip theorem -/

theorem leBytes_length (w v : Nat) : (leBytes w v).length = w := by
  induction w generalizing v with
  | zero => rfl
  | succ w ih => simp [leBytes, ih]

theorem leValue_leBytes (w v : Nat) : leValue (leBytes w v) = v % 256 ^ w := by
  induction w generalizing v with
  | zero => simp [leBytes, leValue, Nat.mod_one]
  | succ w ih =>
    rw [leBytes, leValue, ih, pow_succ, mul_comm (256 ^ w) 256, Nat.mod_mul]

theorem putUint_length (order : ByteOrder) (w v : Nat) :
    (putUint order w v).length = w := by
  cases order <;> simp [putUint, leBytes_length]

theorem getUint_putUint (order : ByteOrder) (w v : Nat) :
    getUint order (putUint order w v) = v % 256 ^ w := by
  cases order <;> simp [putUint, getUint, leValue_leBytes]

/-- C1: for every natural number n representable at the native width,
decoding with readNativeUIntFromConn the bytes that
writeNativeUIntToConn produced for n returns n again, at both the
4-byte and the 8-byte native widths and under both byte orders. -/
theorem native_uint_roundtrip (order : ByteOrder) (width n : Nat)
    (hw : width = 4 ∨ width = 8) (hn : n < 2 ^ (8 * width)) :
    (readNativeUIntFromConn order width
      { writeOutcomes := [],
        readOutcomes := [.ok (writeNativeUIntToConn order width
          { writeOutcomes := [], readOutcomes := [], written := [] } n).2.written],
        written := [] }).1 = .ok n := by
  have h256 : (256 : Nat) = 2 ^ 8 := by norm_num
  rcases hw with rfl | rfl <;>
    simp [writeNativeUIntToConn, readNativeUIntFromConn, connWrite, connRead,
      List.take_of_length_le, putUint_length, getUint_putUint, h256,
      ← pow_mul] <;>
    omega

/-- Witness for C1 at order little, width 8, n = 300. -/
theorem native_uint_roundtrip_witness :
    (readNativeUIntFromConn .little 8
      { writeOutcomes := [],
        readOutcomes := [.ok (writeNativeUIntToConn .little 8
          { writeOutcomes := [], readOutcomes := [], written := [] } 300).2.written],
        written := [] }).1 = .ok 300 :=
  native_uint_roundtrip .little 8 300 (Or.inr rfl) (by norm_num)

/-! ## V3 request framing -/

theorem v3Command_eq : v3Command = [103, 101, 116, 45, 97, 108, 108] := by
  decide

/-- C2: when the v3 stream protocol is selected, the request bytes
written to the socket are exactly a 4-byte all-zero preamble, then the
native-width host-order encoding of the command length, then the ASCII
bytes of get-all, which contain no newline byte. -/
theorem v3_request_bytes (order : ByteOrder) (width : Nat) (s : V3Script)
    (hw : width = 4 ∨ width = 8)
    (hdial : s.dial = none) (hdeadline : s.setDeadline = none)
    (hwrites : s.conn.writeOutcomes = [none, none, none])
    (hwritten : s.conn.written = []) :
    (gatherFromV3Server order width s).written
        = [0, 0, 0, 0] ++ putUint order width v3Command.length ++ v3Command
      ∧ v3Command = [103, 101, 116, 45, 97, 108, 108]
      ∧ (10 : Nat) ∉ v3Command := by
  refine ⟨?_, v3Command_eq, by decide⟩
  obtain ⟨d, sd, ⟨wo, ro, wr⟩, cl⟩ := s
  simp only at hdial hdeadline hwrites hwritten
  subst hdial hdeadline hwrites hwritten
  rcases hw with rfl | rfl <;>
    rcases ro with _ | ⟨e1 | b1, _ | ⟨e2 | b2, _ | ⟨e3 | b3, ro⟩⟩⟩ <;>
    simp [gatherFromV3Server, writeNativeUIntToConn, readNativeUIntFromConn,
      connWrite, connRead] <;>
    split_ifs <;>
    simp
  all_goals split_ifs <;> rfl

/-- Witness for C2 at order little, width 8, with an all-success
script. -/
theorem v3_request_bytes_witness :
    (gatherFromV3Server .little 8
      { dial := none, setDeadline := none,
        conn := { writeOutcomes := [none, none, none], readOutcomes := [],
                  written := [] },
        closeResult := none }).written
        = [0, 0, 0, 0] ++ putUint .little 8 v3Command.length ++ v3Command
      ∧ v3Command = [103, 101, 116, 45, 97, 108, 108]
      ∧ (10 : Nat) ∉ v3Command :=
  v3_request_bytes .little 8 _ (Or.inr rfl) rfl rfl rfl rfl

/-! ## Split lemmas -/

theorem splitOnChar_ne_nil (c : Char) (l : List Char) : splitOnChar c l ≠ [] := by
  cases l with
  | nil => simp [splitOnChar]
  | cons x xs =>
    cases h : splitOnChar c xs <;> simp [splitOnChar, h] <;> split <;> simp

theorem splitOnChar_of_not_mem {c : Char} {l : List Char} (h : c ∉ l) :
    splitOnChar c l = [l] := by
  induction l with
  | nil => rfl
  | cons x xs ih =>
    have hx : x ≠ c := fun hc => h (hc ▸ List.mem_cons_self x xs)
    have hxs : c ∉ xs := fun hc => h (List.mem_cons_of_mem x hc)
    simp [splitOnChar, ih hxs, hx]

theorem splitOnChar_append_sep {c : Char} {l : List Char} (r : List Char)
    (h : c ∉ l) : splitOnChar c (l ++ c :: r) = l :: splitOnChar c r := by
  induction l with
  | nil =>
    cases hr : splitOnChar c r with
    | nil => exact absurd hr (splitOnChar_ne_nil c r)
    | cons y ys => simp [splitOnChar, hr]
  | cons x xs ih =>
    have hx : x ≠ c := fun hc => h (hc ▸ List.mem_cons_self x xs)
    have hxs : c ∉ xs := fun hc => h (List.mem_cons_of_mem x hc)
    simp [splitOnChar, ih hxs, hx]

theorem dropLast_splitOnChar_append {c : Char} {t : List Char} (s : List Char)
    (h : c ∉ t) :
    (splitOnChar c (s ++ t)).dropLast = (splitOnChar c s).dropLast := by
  induction s with
  | nil => simp [splitOnChar, splitOnChar_of_not_mem h]
  | cons x s ih =>
    simp only [List.cons_append, splitOnChar]
    cases ha : splitOnChar c (s ++ t) with
    | nil => exact absurd ha (splitOnChar_ne_nil c (s ++ t))
    | cons y ys =>
      cases hb : splitOnChar c s with
      | nil => exact absurd hb (splitOnChar_ne_nil c s)
      | cons z zs =>
        rw [ha, hb] at ih
        by_cases hx : x = c
        · simp only [if_pos hx]
          rw [List.dropLast_cons₂, List.dropLast_cons₂, ih]
        · simp only [if_neg hx]
          cases ys with
          | nil =>
            cases zs with
            | nil => rfl
            | cons z2 zs2 =>
              rw [List.dropLast_single, List.dropLast_cons₂] at ih
              exact absurd ih.symm (by simp)
          | cons y2 ys2 =>
            cases zs with
            | nil =>
              rw [List.dropLast_single, List.dropLast_cons₂] at ih
              exact absurd ih (by simp)
            | cons z2 zs2 =>
              rw [List.dropLast_cons₂, List.dropLast_cons₂] at ih
              rw [List.dropLast_cons₂, List.dropLast_cons₂]
              injection ih with ih1 ih2
              rw [ih1, ih2]

/-- C10: the response decoder drops the final newline-separated
segment unconditionally; appending any newline-free suffix to an input
does not change the decode, and in particular a valid-looking final
pair without a terminating line break is silently dropped. -/
theorem parseResponse_drops_final_segment (s t : List Char)
    (h : '\n' ∉ t) : parseResponse (s ++ t) = parseResponse s := by
  rw [parseResponse, parseResponse, dropLast_splitOnChar_append s h]

/-- Witness for C10: the input a TAB 1 with no trailing newline
decodes to the empty mapping. -/
theorem parseResponse_drops_final_segment_witness :
    parseResponse ['a', '\t', '1'] = [] := by
  have h := parseResponse_drops_final_segment [] ['a', '\t', '1'] (by decide)
  simpa using h

/-! ## Line-structured inputs -/

/-- Text consisting of the given lines, each terminated by a line
break: the well-formed response shape of the wire protocol. -/
def joinLines (ls : List (List Char)) : List Char :=
  (ls.map (fun l => l ++ ['\n'])).flatten

theorem dropLast_splitOnChar_joinLines (ls : List (List Char))
    (h : ∀ l ∈ ls, '\n' ∉ l) :
    (splitOnChar '\n' (joinLines ls)).dropLast = ls := by
  induction ls with
  | nil => simp [joinLines, splitOnChar]
  | cons l ls ih =>
    have hl : '\n' ∉ l := h l (List.mem_cons_self l ls)
    have hls : ∀ x ∈ ls, '\n' ∉ x := fun x hx => h x (List.mem_cons_of_mem l hx)
    have hj : joinLines (l :: ls) = l ++ '\n' :: joinLines ls := by
      simp [joinLines]
    rw [hj, splitOnChar_append_sep _ hl]
    cases hs : splitOnChar '\n' (joinLines ls) with
    | nil => exact absurd hs (splitOnChar_ne_nil _ _)
    | cons y ys =>
      rw [List.dropLast_cons₂]
      rw [hs] at ih
      rw [ih hls]

theorem parseResponse_joinLines (ls : List (List Char))
    (h : ∀ l ∈ ls, '\n' ∉ l) :
    parseResponse (joinLines ls) = ls.foldl parseLine [] := by
  rw [parseResponse, dropLast_splitOnChar_joinLines ls h]

/-- A line with fewer than two tab-separated fields, or whose second
field does not parse as a signed 64-bit integer, leaves the decoder
state unchanged. -/
theorem parseLine_skip (m : List (List Char × Int)) (bad : List Char)
    (hskip : (splitOnChar '\t' bad).length < 2 ∨
      ∃ m0 m1 rest, splitOnChar '\t' bad = m0 :: m1 :: rest ∧
        parseInt64 m1 = none) :
    parseLine m bad = m := by
  rcases hskip with hlen | ⟨m0, m1, rest, hsplit, hnone⟩
  · rw [parseLine]
    cases hs : splitOnChar '\t' bad with
    | nil => rfl
    | cons a tl =>
      cases tl with
      | nil => rfl
      | cons b tl2 => rw [hs] at hlen; simp at hlen; omega
  · simp [parseLine, hsplit, hnone]

/-- C4: a line whose second tab-separated field does not parse as a
signed 64-bit integer, or that has fewer than two fields, is skipped
while all remaining lines are still processed; the decode never fails
because of such a line. -/
theorem parseResponse_skips_bad_line (ls1 ls2 : List (List Char))
    (bad : List Char)
    (h1 : ∀ l ∈ ls1, '\n' ∉ l) (h2 : ∀ l ∈ ls2, '\n' ∉ l)
    (hbad : '\n' ∉ bad)
    (hskip : (splitOnChar '\t' bad).length < 2 ∨
      ∃ m0 m1 rest, splitOnChar '\t' bad = m0 :: m1 :: rest ∧
        parseInt64 m1 = none) :
    parseResponse (joinLines (ls1 ++ bad :: ls2))
      = parseResponse (joinLines (ls1 ++ ls2)) := by
  have hall1 : ∀ l ∈ ls1 ++ bad :: ls2, '\n' ∉ l := by
    intro l hl
    rcases List.mem_append.mp hl with hl | hl
    · exact h1 l hl
    · rcases List.mem_cons.mp hl with rfl | hl
      · exact hbad
      · exact h2 l hl
  have hall2 : ∀ l ∈ ls1 ++ ls2, '\n' ∉ l := by
    intro l hl
    rcases List.mem_append.mp hl with hl | hl
    · exact h1 l hl
    · exact h2 l hl
  rw [parseResponse_joinLines _ hall1, parseResponse_joinLines _ hall2]
  rw [List.foldl_append, List.foldl_append, List.foldl_cons,
    parseLine_skip _ bad hskip]

/-- Witness for C4: the response with lines a TAB NaN and b TAB 2
decodes as if the unparseable line were absent, yielding only b. -/
theorem parseResponse_skips_bad_line_witness :
    parseResponse (joinLines [['a', '\t', 'N', 'a', 'N'], ['b', '\t', '2']])
        = parseResponse (joinLines [['b', '\t', '2']])
      ∧ parseResponse (joinLines [['a', '\t', 'N', 'a', 'N'], ['b', '\t', '2']])
        = [(['b'], 2)] := by
  refine ⟨?_, by decide⟩
  exact parseResponse_skips_bad_line [] [['b', '\t', '2']]
    ['a', '\t', 'N', 'a', 'N'] (by simp) (by decide) (by decide)
    (Or.inr ⟨['a'], ['N', 'a', 'N'], [], by decide, by decide⟩)

/-! ## Character facts about parseInt64 -/

theorem parseDigits_all_digit {cs : List Char} {n : Nat}
    (h : parseDigits cs = some n) : ∀ x ∈ cs, x.isDigit := by
  rw [parseDigits] at h
  split at h
  · rename_i hc
    intro x hx
    have := hc.2
    rw [List.all_eq_true] at this
    exact this x hx
  · exact absurd h (by simp)

theorem parseInt64_clean {s : List Char} {v : Int}
    (h : parseInt64 s = some v) :
    ∀ x ∈ s, x.isDigit ∨ x = '+' ∨ x = '-' := by
  cases s with
  | nil => simp [parseInt64] at h
  | cons c rest =>
    rw [parseInt64] at h
    by_cases h1 : c = '+'
    · rw [if_pos h1] at h
      cases hp : parseDigits rest with
      | none => rw [hp] at h; simp at h
      | some n =>
        intro x hx
        rcases List.mem_cons.mp hx with rfl | hx
        · exact Or.inr (Or.inl h1)
        · exact Or.inl (parseDigits_all_digit hp x hx)
    · rw [if_neg h1] at h
      by_cases h2 : c = '-'
      · rw [if_pos h2] at h
        cases hp : parseDigits rest with
        | none => rw [hp] at h; simp at h
        | some n =>
          intro x hx
          rcases List.mem_cons.mp hx with rfl | hx
          · exact Or.inr (Or.inr h2)
          · exact Or.inl (parseDigits_all_digit hp x hx)
      · rw [if_neg h2] at h
        cases hp : parseDigits (c :: rest) with
        | none => rw [hp] at h; simp at h
        | some n =>
          intro x hx
          exact Or.inl (parseDigits_all_digit hp x hx)

theorem parseInt64_no_tab_newline {s : List Char} {v : Int}
    (h : parseInt64 s = some v) : '\t' ∉ s ∧ '\n' ∉ s := by
  constructor <;> intro hmem <;>
    rcases parseInt64_clean h _ hmem with hd | hd | hd <;>
    exact absurd hd (by decide)

/-! ## Map lemmas -/

theorem mapInsert_of_not_mem {m : List (List Char × Int)} {k : List Char}
    (v : Int) (h : k ∉ m.map Prod.fst) : mapInsert m k v = m ++ [(k, v)] := by
  induction m with
  | nil => rfl
  | cons q m ih =>
    obtain ⟨k0, v0⟩ := q
    simp only [List.map_cons, List.mem_cons] at h
    push_neg at h
    rw [mapInsert, if_neg (fun e => h.1 e.symm), ih h.2]
    rfl

theorem foldl_mapInsert_nodup (qs : List (List Char × Int))
    (m : List (List Char × Int))
    (hnd : (qs.map Prod.fst).Nodup)
    (hfresh : ∀ q ∈ qs, q.1 ∉ m.map Prod.fst) :
    qs.foldl (fun acc q => mapInsert acc q.1 q.2) m = m ++ qs := by
  induction qs generalizing m with
  | nil => simp
  | cons q qs ih =>
    obtain ⟨k, v⟩ := q
    simp only [List.map_cons, List.nodup_cons] at hnd
    rw [List.foldl_cons,
      mapInsert_of_not_mem v (hfresh (k, v) (List.mem_cons_self _ _)),
      ih (m ++ [(k, v)]) hnd.2]
    · simp
    · intro q hq
      simp only [List.map_append, List.mem_append, List.map_cons,
        List.map_nil, List.mem_singleton]
      push_neg
      refine ⟨hfresh q (List.mem_cons_of_mem _ hq), fun e => hnd.1 ?_⟩
      rw [← e]
      exact List.mem_map_of_mem Prod.fst hq

theorem mapLookup_mapInsert_self (m : List (List Char × Int))
    (k : List Char) (v : Int) : mapLookup (mapInsert m k v) k = some v := by
  induction m with
  | nil => simp [mapInsert, mapLookup]
  | cons q m ih =>
    obtain ⟨k0, v0⟩ := q
    by_cases h : k0 = k
    · simp [mapInsert, mapLookup, h]
    · simp [mapInsert, mapLookup, h, ih]

theorem mapLookup_mapInsert_ne (m : List (List Char × Int))
    {k k2 : List Char} (v : Int) (h : k2 ≠ k) :
    mapLookup (mapInsert m k v) k2 = mapLookup m k2 := by
  have hk : ¬(k = k2) := fun e => h e.symm
  induction m with
  | nil => simp [mapInsert, mapLookup, hk]
  | cons q m ih =>
    obtain ⟨k0, v0⟩ := q
    by_cases h0 : k0 = k
    · subst h0
      simp [mapInsert, mapLookup, hk]
    · by_cases h2 : k0 = k2
      · simp [mapInsert, mapLookup, h0, h2, h]
      · simp [mapInsert, mapLookup, h0, h2, ih]

theorem mapLookup_foldl_not_mem (qs : List (List Char × Int))
    (m : List (List Char × Int)) (k : List Char)
    (hq : qs.filter (fun x => x.1 = k) = []) :
    mapLookup (qs.foldl (fun acc x => mapInsert acc x.1 x.2) m) k
      = mapLookup m k := by
  induction qs generalizing m with
  | nil => rfl
  | cons x qs ih =>
    rw [List.filter_cons] at hq
    by_cases hx : x.1 = k
    · simp [hx] at hq
    · rw [List.foldl_cons, ih _ (by simpa [hx] using hq),
        mapLookup_mapInsert_ne _ _ (fun e => hx e.symm)]

theorem mapLookup_foldl_last (qs : List (List Char × Int))
    (m : List (List Char × Int)) (k : List Char) (q : List Char × Int)
    (hlast : (qs.filter (fun x => x.1 = k)).getLast? = some q) :
    mapLookup (qs.foldl (fun acc x => mapInsert acc x.1 x.2) m) k
      = some q.2 := by
  induction qs generalizing m with
  | nil => simp at hlast
  | cons x qs ih =>
    by_cases hx : x.1 = k
    · have hfilter : (x :: qs).filter (fun y => decide (y.1 = k))
          = x :: qs.filter (fun y => decide (y.1 = k)) := by
        simp [List.filter_cons, hx]
      rw [hfilter] at hlast
      cases hq2 : qs.filter (fun y => decide (y.1 = k)) with
      | nil =>
        rw [hq2] at hlast
        simp only [List.getLast?_singleton, Option.some_inj] at hlast
        subst hlast
        rw [List.foldl_cons, mapLookup_foldl_not_mem qs _ k hq2, ← hx,
          mapLookup_mapInsert_self]
      | cons y ys =>
        rw [hq2, List.getLast?_cons_cons] at hlast
        rw [List.foldl_cons]
        exact ih _ (by rw [hq2]; exact hlast)
    · have hfilter : (x :: qs).filter (fun y => decide (y.1 = k))
          = qs.filter (fun y => decide (y.1 = k)) := by
        simp [List.filter_cons, hx]
      rw [hfilter] at hlast
      rw [List.foldl_cons]
      exact ih _ hlast

/-! ## Well-formed responses -/

/-- Well-formed response text for a list of name and value-string
pairs: one name TAB value line per pair, each terminated by a line
break. -/
def renderResponse (ps : List (List Char × List Char)) : List Char :=
  joinLines (ps.map (fun p => p.1 ++ '\t' :: p.2))

theorem parseLine_good (m : List (List Char × Int)) {name vs : List Char}
    {v : Int} (hname : '\t' ∉ name) (hv : parseInt64 vs = some v) :
    parseLine m (name ++ '\t' :: vs) = mapInsert m name v := by
  have htab : '\t' ∉ vs := (parseInt64_no_tab_newline hv).1
  rw [parseLine, splitOnChar_append_sep _ hname, splitOnChar_of_not_mem htab]
  simp [hv]

theorem renderResponse_lines_newline_free
    (ps : List (List Char × List Char))
    (hnames : ∀ p ∈ ps, '\n' ∉ p.1)
    (hvals : ∀ p ∈ ps, (parseInt64 p.2).isSome) :
    ∀ l ∈ ps.map (fun p => p.1 ++ '\t' :: p.2), '\n' ∉ l := by
  intro l hl
  obtain ⟨p, hp, rfl⟩ := List.mem_map.mp hl
  obtain ⟨v, hv⟩ := Option.isSome_iff_exists.mp (hvals p hp)
  intro hmem
  rcases List.mem_append.mp hmem with hmem | hmem
  · exact hnames p hp hmem
  · rcases List.mem_cons.mp hmem with he | hmem
    · exact absurd he (by decide)
    · exact (parseInt64_no_tab_newline hv).2 hmem

theorem foldl_parseLine_render (ps : List (List Char × List Char))
    (m : List (List Char × Int))
    (h : ∀ p ∈ ps, '\t' ∉ p.1 ∧ (parseInt64 p.2).isSome) :
    (ps.map (fun p => p.1 ++ '\t' :: p.2)).foldl parseLine m
      = ps.foldl (fun acc p => mapInsert acc p.1 ((parseInt64 p.2).getD 0)) m := by
  induction ps generalizing m with
  | nil => rfl
  | cons p ps ih =>
    obtain ⟨htab, hsome⟩ := h p (List.mem_cons_self p ps)
    obtain ⟨v, hv⟩ := Option.isSome_iff_exists.mp hsome
    rw [List.map_cons, List.foldl_cons, List.foldl_cons,
      parseLine_good m htab hv, hv]
    simp only [Option.getD_some]
    exact ih _ (fun q hq => h q (List.mem_cons_of_mem p hq))

/-- C3: for every well-formed response text of tab-separated name and
value lines, each terminated by a line break and with pairwise
distinct names, the decoder returns exactly the listed mapping: every
pair is present with its decimal value parsed as a signed 64-bit
integer, and nothing else. -/
theorem parseResponse_wellformed_exact (ps : List (List Char × List Char))
    (hnames : ∀ p ∈ ps, '\t' ∉ p.1 ∧ '\n' ∉ p.1)
    (hvals : ∀ p ∈ ps, (parseInt64 p.2).isSome)
    (hnodup : (ps.map Prod.fst).Nodup) :
    parseResponse (renderResponse ps)
      = ps.map (fun p => (p.1, (parseInt64 p.2).getD 0)) := by
  rw [renderResponse,
    parseResponse_joinLines _
      (renderResponse_lines_newline_free ps (fun p hp => (hnames p hp).2) hvals),
    foldl_parseLine_render ps [] (fun p hp => ⟨(hnames p hp).1, hvals p hp⟩)]
  have hfold := foldl_mapInsert_nodup
    (ps.map (fun p => (p.1, (parseInt64 p.2).getD 0))) [] ?nd ?fresh
  case nd =>
    have : (ps.map (fun p => (p.1, (parseInt64 p.2).getD 0))).map Prod.fst
        = ps.map Prod.fst := by
      simp [List.map_map, Function.comp]
    rw [this]
    exact hnodup
  case fresh =>
    intro q _
    simp
  rw [List.foldl_map] at hfold
  simpa using hfold

/-- Witness for C3: the response a TAB 1, b TAB 2 decodes to exactly
the pairs a to 1 and b to 2. -/
theorem parseResponse_wellformed_exact_witness :
    parseResponse (renderResponse [(['a'], ['1']), (['b'], ['2'])])
      = [(['a'], 1), (['b'], 2)] := by
  rw [parseResponse_wellformed_exact _ (by decide) (by decide) (by decide)]
  decide

/-- C5: when the same metric name appears on more than one valid line
of a well-formed response, the decoder maps that name to the value of
the last such line, and no duplicate-key error occurs. -/
theorem parseResponse_last_write_wins (ps : List (List Char × List Char))
    (name : List Char) (q : List Char × List Char)
    (hnames : ∀ p ∈ ps, '\t' ∉ p.1 ∧ '\n' ∉ p.1)
    (hvals : ∀ p ∈ ps, (parseInt64 p.2).isSome)
    (_hdup : 2 ≤ (ps.filter (fun p => p.1 = name)).length)
    (hlast : (ps.filter (fun p => p.1 = name)).getLast? = some q) :
    mapLookup (parseResponse (renderResponse ps)) name = parseInt64 q.2 := by
  rw [renderResponse,
    parseResponse_joinLines _
      (renderResponse_lines_newline_free ps (fun p hp => (hnames p hp).2) hvals),
    foldl_parseLine_render ps [] (fun p hp => ⟨(hnames p hp).1, hvals p hp⟩)]
  have hqmem : q ∈ ps :=
    List.mem_of_mem_filter (List.mem_of_mem_getLast? (Option.mem_def.mpr hlast))
  obtain ⟨v, hv⟩ := Option.isSome_iff_exists.mp (hvals q hqmem)
  have hmap := mapLookup_foldl_last
    (ps.map (fun p => (p.1, (parseInt64 p.2).getD 0))) [] name
    (q.1, (parseInt64 q.2).getD 0) ?hl
  case hl =>
    rw [List.filter_map]
    have hcomp : ((fun x : List Char × Int => decide (x.1 = name)) ∘
        (fun p : List Char × List Char => (p.1, (parseInt64 p.2).getD 0)))
        = fun p : List Char × List Char => decide (p.1 = name) := rfl
    rw [hcomp, List.getLast?_map, hlast]
    rfl
  rw [List.foldl_map] at hmap
  rw [hmap, hv]
  rfl

/-- Witness for C5: in a response listing a twice, with values 1 then
3, the decoded mapping sends a to 3. -/
theorem parseResponse_last_write_wins_witness :
    mapLookup (parseResponse (renderResponse [(['a'], ['1']), (['a'], ['3'])]))
      ['a'] = some 3 := by
  rw [parseResponse_last_write_wins [(['a'], ['1']), (['a'], ['3'])] ['a']
    (['a'], ['3']) (by decide) (by decide) (by decide) (by decide)]
  decide

/-! ## V3 read-phase error handling -/

/-- C6: in the v3 stream exchange, when the body read returns fewer
bytes than the declared response length, the exchange fails with the
incomplete-response error and no fields are emitted. -/
theorem v3_short_body_incomplete (order : ByteOrder) (width : Nat)
    (s : V3Script) (st lb body : List Nat)
    (hw : width = 4 ∨ width = 8)
    (hdial : s.dial = none) (hdeadline : s.setDeadline = none)
    (hwrites : s.conn.writeOutcomes = [none, none, none])
    (hreads : s.conn.readOutcomes = [.ok st, .ok lb, .ok body])
    (hst : st ≠ [])
    (hlb : lb.length = width)
    (hL : getUint order lb ≠ 0)
    (hshort : body.length < getUint order lb) :
    (gatherFromV3Server order width s).ret
        = some (.incompleteResponse (getUint order lb) body.length)
      ∧ (gatherFromV3Server order width s).emitted = none := by
  have hst0 : (st.take 4).length ≠ 0 := by
    rw [List.length_take]
    have : st.length ≠ 0 := fun h => hst (List.length_eq_zero.mp h)
    omega
  have hlbtake : lb.take width = lb := by
    rw [← hlb]
    exact List.take_length lb
  have hbody : (body.take (getUint order lb)).length = body.length := by
    rw [List.length_take]
    omega
  have hbodyne : (body.take (getUint order lb)).length ≠ getUint order lb := by
    rw [hbody]
    omega
  obtain ⟨d, sd, ⟨wo, ro, wr⟩, cl⟩ := s
  simp only at hdial hdeadline hwrites hreads
  subst hdial hdeadline hwrites hreads
  have hblne : body.length ≠ getUint order lb := Nat.ne_of_lt hshort
  rcases hw with rfl | rfl <;>
    simp [gatherFromV3Server, writeNativeUIntToConn, readNativeUIntFromConn,
      connWrite, connRead, hlbtake, hlb, hst0, hL, hbodyne, hbody, hst, hblne]

/-- Witness for C6: a peer declaring length 2 but delivering one byte
fails with the incomplete-response error and emits nothing. -/
theorem v3_short_body_incomplete_witness :
    (gatherFromV3Server .little 8
      { dial := none, setDeadline := none,
        conn := { writeOutcomes := [none, none, none],
                  readOutcomes := [.ok [0], .ok [2, 0, 0, 0, 0, 0, 0, 0],
                    .ok [65]],
                  written := [] },
        closeResult := none }).ret = some (.incompleteResponse 2 1)
    ∧ (gatherFromV3Server .little 8
      { dial := none, setDeadline := none,
        conn := { writeOutcomes := [none, none, none],
                  readOutcomes := [.ok [0], .ok [2, 0, 0, 0, 0, 0, 0, 0],
                    .ok [65]],
                  written := [] },
        closeResult := none }).emitted = none :=
  v3_short_body_incomplete .little 8 _ [0] [2, 0, 0, 0, 0, 0, 0, 0] [65]
    (Or.inr rfl) rfl rfl rfl rfl (by decide) (by decide) (by decide) (by decide)

/-- C7: in the v3 stream exchange, a decoded response length of zero
fails with the empty-response error rather than decoding an empty
metrics set, and no fields are emitted. -/
theorem v3_zero_length_empty_response (order : ByteOrder) (width : Nat)
    (s : V3Script) (st lb : List Nat)
    (hw : width = 4 ∨ width = 8)
    (hdial : s.dial = none) (hdeadline : s.setDeadline = none)
    (hwrites : s.conn.writeOutcomes = [none, none, none])
    (hreads : s.conn.readOutcomes = [.ok st, .ok lb])
    (hst : st ≠ [])
    (hlb : lb.length = width)
    (hL : getUint order lb = 0) :
    (gatherFromV3Server order width s).ret = some .emptyResponse
      ∧ (gatherFromV3Server order width s).emitted = none := by
  have hst0 : (st.take 4).length ≠ 0 := by
    rw [List.length_take]
    have : st.length ≠ 0 := fun h => hst (List.length_eq_zero.mp h)
    omega
  have hlbtake : lb.take width = lb := by
    rw [← hlb]
    exact List.take_length lb
  obtain ⟨d, sd, ⟨wo, ro, wr⟩, cl⟩ := s
  simp only at hdial hdeadline hwrites hreads
  subst hdial hdeadline hwrites hreads
  rcases hw with rfl | rfl <;>
    simp [gatherFromV3Server, writeNativeUIntToConn, readNativeUIntFromConn,
      connWrite, connRead, hlbtake, hlb, hst0, hL, hst]

/-- Witness for C7: a peer declaring response length 0 fails with the
empty-response error and emits nothing. -/
theorem v3_zero_length_empty_response_witness :
    (gatherFromV3Server .big 4
      { dial := none, setDeadline := none,
        conn := { writeOutcomes := [none, none, none],
                  readOutcomes := [.ok [0, 0, 0, 0], .ok [0, 0, 0, 0]],
                  written := [] },
        closeResult := none }).ret = some .emptyResponse
    ∧ (gatherFromV3Server .big 4
      { dial := none, setDeadline := none,
        conn := { writeOutcomes := [none, none, none],
                  readOutcomes := [.ok [0, 0, 0, 0], .ok [0, 0, 0, 0]],
                  written := [] },
        closeResult := none }).emitted = none :=
  v3_zero_length_empty_response .big 4 _ [0, 0, 0, 0] [0, 0, 0, 0]
    (Or.inl rfl) rfl rfl rfl rfl (by decide) (by decide) (by decide)

/-! ## Orchestrator -/

theorem gather_foldl (sockets : List String) (newProtocol : Bool)
    (scripts : String → LegacyScript) (acc : Accumulated) :
    sockets.foldl
        (fun a sock =>
          accumulateServer a sock (gatherServer newProtocol (scripts sock)))
        acc
      = { records := acc.records ++ sockets.filterMap (fun sock =>
            (gatherServer newProtocol (scripts sock)).emitted.map
              (fun f => (sock, f))),
          errors := acc.errors ++ sockets.filterMap (fun sock =>
            (gatherServer newProtocol (scripts sock)).ret) } := by
  induction sockets generalizing acc with
  | nil => simp
  | cons sock sockets ih =>
    rw [List.foldl_cons, ih]
    cases he : (gatherServer newProtocol (scripts sock)).emitted <;>
      cases hr : (gatherServer newProtocol (scripts sock)).ret <;>
      simp [accumulateServer, List.filterMap_cons, he, hr]

/-- C8: for every nonempty configured target list, the orchestrator
returns nil, records one error per failing target and one tagged
record per emitting target, in order; no failure aborts the batch or
suppresses other targets. -/
theorem gather_processes_all_targets (sockets : List String)
    (newProtocol : Bool) (scripts : String → LegacyScript)
    (hne : sockets ≠ []) :
    Gather sockets newProtocol scripts
      = (none,
         { records := sockets.filterMap (fun sock =>
             (gatherServer newProtocol (scripts sock)).emitted.map
               (fun f => (sock, f))),
           errors := sockets.filterMap (fun sock =>
             (gatherServer newProtocol (scripts sock)).ret) }) := by
  cases sockets with
  | nil => exact absurd rfl hne
  | cons s ss =>
    simp only [Gather]
    rw [gather_foldl]
    simp

/-- Witness for C8: two targets that both fail at the remote address
resolution produce two recorded errors, no records, and a nil return. -/
theorem gather_processes_all_targets_witness :
    Gather ["a", "b"] false
      (fun _ =>
        { resolveLocal := none, resolveRemote := some (.ioError "x"),
          dial := none, chmod := none, setDeadline := none,
          conn := { writeOutcomes := [], readOutcomes := [], written := [] },
          closeResult := none })
      = (none, { records := [], errors := [.ioError "x", .ioError "x"] }) := by
  rw [gather_processes_all_targets _ _ _ (by simp)]
  rfl

/-! ## Legacy endpoint cleanup -/

/-- C9: once the ephemeral local endpoint name has been resolved, the
legacy datagram exchange removes the endpoint path on every exit path,
whatever the outcome of the remaining steps. -/
theorem legacy_removes_endpoint (newProtocol : Bool) (s : LegacyScript)
    (h : s.resolveLocal = none) :
    (gatherServer newProtocol s).removed = true := by
  simp [gatherServer, h]

/-- Witness for C9: a call that fails at DialUnix still removes the
endpoint path. -/
theorem legacy_removes_endpoint_witness :
    (gatherServer false
      { resolveLocal := none, resolveRemote := none,
        dial := some (.ioError "refused"), chmod := none,
        setDeadline := none,
        conn := { writeOutcomes := [], readOutcomes := [], written := [] },
        closeResult := none }).removed = true :=
  legacy_removes_endpoint false _ rfl

end PowerdnsRecursor
